import Mathlib

/-!
Verification development for the RAG_V versioned processing pipeline and
hybrid retrieval engine.

The definitions below are a shallow embedding of the Python source:

* `src/memory/parse.py`   — `ParserManager` (the `parsed` table and its operations),
* `src/memory/chunks.py`  — `ChunkingManager` (the `chunk_run` table and its operations),
* `src/memory/index.py`   — `IndexManager` (the `index_run` table and its operations),
* `src/retriever/retrievers.py` — the vector / BM25 / fusion retrievers,
* `src/file_process/parallel_pipeline.py` — the batch pipeline generators.

SQLite tables are modelled as Lean lists of records in table order; SQL
`UPDATE`/`DELETE`/`INSERT` statements become `List.map` / `List.filter` /
append; `AUTOINCREMENT` ids become an explicit `next id` counter;
`CURRENT_TIMESTAMP` values are passed in as explicit `Nat` timestamps
(SQLite compares the stored timestamp strings by order, which the `Nat`
order abstracts).  Python exceptions that escape a manager method are
modelled with `Except String`.  Floating point scores are modelled as
exact rationals `ℚ`.
-/

/-! ### `src/memory/parse.py` — the `parsed` table

One row of the `parsed` table (`_init_parse_tables`).  `is_active` is stored
as the integers 0/1 in SQLite and used as a boolean, so it is a `Bool` here.
The `parse_run` bookkeeping table (id and time only) plays no role in the
claims about `parsed` and is not modelled. -/
structure ParsedRecord where
  parse_id : Nat
  file_id : Nat
  parse_run_id : Nat
  parsed_text : String
  parser : String
  parameters : String
  is_active : Bool
  time : Nat
deriving DecidableEq, Repr

/-- The `parsed` table together with the next `AUTOINCREMENT` value for
`parse_id`. -/
structure ParseState where
  parsed : List ParsedRecord
  nextParseId : Nat
deriving DecidableEq, Repr

/-- Model of `ParserManager.add_parsed_content`: insert the new row (taking the fresh
`parse_id` from `lastrowid`), then, if `is_active`, run
`UPDATE parsed SET is_active = 0 WHERE file_id = ? AND parse_id != ?`.
Returns the new state and the created `parse_id`. -/
def add_parsed_content (s : ParseState) (file_id parse_run_id : Nat)
    (parse_run_time : Nat) (parsed_text parser parameters : String)
    (is_active : Bool) : ParseState × Nat :=
  let pid := s.nextParseId
  let rec0 : ParsedRecord :=
    ⟨pid, file_id, parse_run_id, parsed_text, parser, parameters, is_active, parse_run_time⟩
  let l1 := s.parsed ++ [rec0]
  let l2 :=
    if is_active then
      l1.map (fun p =>
        if p.file_id == file_id && !(p.parse_id == pid) then
          { p with is_active := false } else p)
    else l1
  (⟨l2, pid + 1⟩, pid)

/-- Model of `ParserManager.set_active_parse_run`: first
`UPDATE parsed SET is_active = 0 WHERE file_id = ?`, then
`UPDATE parsed SET is_active = 1 WHERE file_id = ? AND parse_run_id = ?`;
the boolean result is `cur.rowcount > 0` of the second update, i.e. whether
any row matched `(file_id, parse_run_id)`. -/
def set_active_parse_run (s : ParseState) (file_id parse_run_id : Nat) :
    ParseState × Bool :=
  let l1 := s.parsed.map (fun p =>
    if p.file_id == file_id then { p with is_active := false } else p)
  let l2 := l1.map (fun p =>
    if p.file_id == file_id && p.parse_run_id == parse_run_id then
      { p with is_active := true } else p)
  (⟨l2, s.nextParseId⟩,
   0 < l1.countP (fun p => p.file_id == file_id && p.parse_run_id == parse_run_id))

/-- The spec's per-document activity invariant at parse-run granularity:
all active parsed records of file `f` belong to a single parse run. -/
def atMostOneActiveRun (s : ParseState) (f : Nat) : Prop :=
  ∀ p ∈ s.parsed, ∀ q ∈ s.parsed,
    p.file_id = f → q.file_id = f → p.is_active = true → q.is_active = true →
      p.parse_run_id = q.parse_run_id

section ParseLemmas

/-- Every record of the state after `set_active_parse_run` comes from a record
of the old state with the same `file_id` and `parse_run_id`; records of other
files are untouched, and an active record of the targeted file carries the
targeted `parse_run_id`. -/
theorem set_active_parse_run_mem (s : ParseState) (f r : Nat) :
    ∀ p' ∈ ((set_active_parse_run s f r).1).parsed, ∃ p ∈ s.parsed,
      p'.file_id = p.file_id ∧ p'.parse_run_id = p.parse_run_id ∧
      (p.file_id ≠ f → p' = p) ∧
      (p'.file_id = f → p'.is_active = true → p'.parse_run_id = r) := by
  intro p' hp'
  unfold set_active_parse_run at hp'
  simp only [List.map_map, List.mem_map, Function.comp] at hp'
  obtain ⟨p, hp, hstep⟩ := hp'
  refine ⟨p, hp, ?_⟩
  subst hstep
  by_cases h1 : p.file_id = f
  · by_cases h2 : p.parse_run_id = r
    · simp [h1, h2]
    · simp [h1, h2]
  · simp [h1]

/-- Lemma: `set_active_parse_run` preserves the single-active-run invariant for
every file. -/
theorem set_active_parse_run_keeps_invariant (s : ParseState) (f r g : Nat)
    (hinv : atMostOneActiveRun s g) :
    atMostOneActiveRun ((set_active_parse_run s f r).1) g := by
  intro p' hp' q' hq' hpf hqf hpa hqa
  obtain ⟨p, hp, hpfile, hprun, hpid, hpact⟩ := set_active_parse_run_mem s f r p' hp'
  obtain ⟨q, hq, hqfile, hqrun, hqid, hqact⟩ := set_active_parse_run_mem s f r q' hq'
  by_cases hgf : g = f
  · subst hgf
    rw [hpact hpf hpa, hqact hqf hqa]
  · have hpne : p.file_id ≠ f := by rw [← hpfile, hpf]; exact hgf
    have hqne : q.file_id ≠ f := by rw [← hqfile, hqf]; exact hgf
    have hpp := hpid hpne
    have hqq := hqid hqne
    rw [hpp] at hpf hpa ⊢
    rw [hqq] at hqf hqa ⊢
    exact hinv p hp q hq hpf hqf hpa hqa

/-- Every record of the state after `add_parsed_content … is_active:=true`
is either the newly inserted record or the image of an old record; the image
keeps `file_id`, `parse_id` and `parse_run_id`, is unchanged when its file is
not the targeted one, and is inactive when its file is the targeted one and
its `parse_id` differs from the fresh one. -/
theorem add_parsed_content_mem (s : ParseState) (f r t : Nat) (tx pr pm : String) :
    ∀ p' ∈ ((add_parsed_content s f r t tx pr pm true).1).parsed,
      p' = ⟨s.nextParseId, f, r, tx, pr, pm, true, t⟩ ∨
      ∃ p ∈ s.parsed, p'.file_id = p.file_id ∧ p'.parse_id = p.parse_id ∧
        p'.parse_run_id = p.parse_run_id ∧
        (p.file_id ≠ f → p' = p) ∧
        (p.file_id = f → p.parse_id ≠ s.nextParseId → p'.is_active = false) := by
  intro p' hp'
  unfold add_parsed_content at hp'
  simp only [if_pos, List.map_append, List.mem_append, List.mem_map, List.map_cons,
    List.map_nil, List.mem_cons, List.not_mem_nil, or_false] at hp'
  rcases hp' with ⟨p, hp, hstep⟩ | hnew
  · right
    refine ⟨p, hp, ?_⟩
    subst hstep
    by_cases h1 : p.file_id = f
    · by_cases h2 : p.parse_id = s.nextParseId
      · simp [h1, h2]
      · simp [h1, h2]
    · simp [h1]
  · left
    rw [hnew]
    simp

/-- The newly inserted record survives `add_parsed_content` untouched. -/
theorem add_parsed_content_new_mem (s : ParseState) (f r t : Nat) (tx pr pm : String) :
    (⟨s.nextParseId, f, r, tx, pr, pm, true, t⟩ : ParsedRecord)
      ∈ ((add_parsed_content s f r t tx pr pm true).1).parsed := by
  unfold add_parsed_content
  simp

end ParseLemmas

/-- C1 — counterexample. Reached from the empty database through the public
API alone: inserting two inactive parsed records for the same
`(file_id, parse_run_id)` pair (the `parsed` table has no uniqueness
constraint on the pair) and then activating that pair via
`set_active_parse_run` leaves TWO parsed records with `is_active = true` for
file 1, so "at most one parsed record has is_active=true" fails at the
record level after an activation call. -/
theorem parse_two_active_records_counterexample :
    (((set_active_parse_run
        ((add_parsed_content
          ((add_parsed_content ⟨[], 1⟩ 1 1 5 "t1" "p" "\x7b\x7d" false).1)
          1 1 6 "t2" "p" "\x7b\x7d" false).1)
        1 1).1).parsed.countP (fun p => p.file_id == 1 && p.is_active)) = 2 := by
  decide

/-- C1 — amended: the invariant holds at parse-run granularity. After
`add_parsed_content(…, is_active=true)` with a fresh `parse_id`, the new
record is present and is the only active record of its file; after
`set_active_parse_run(f, r)` every active record of file `f` belongs to run
`r` (several records of that one run can be active at once, as the
counterexample shows); both operations preserve `atMostOneActiveRun` for
every file. -/
theorem parse_single_active_run (s : ParseState) (f r t : Nat) (tx pr pm : String)
    (hfresh : ∀ p ∈ s.parsed, p.parse_id < s.nextParseId) :
    ((⟨s.nextParseId, f, r, tx, pr, pm, true, t⟩ : ParsedRecord)
        ∈ ((add_parsed_content s f r t tx pr pm true).1).parsed
      ∧ (∀ p' ∈ ((add_parsed_content s f r t tx pr pm true).1).parsed,
          p'.file_id = f → p'.is_active = true →
            p' = ⟨s.nextParseId, f, r, tx, pr, pm, true, t⟩)
      ∧ ∀ g, atMostOneActiveRun s g →
          atMostOneActiveRun ((add_parsed_content s f r t tx pr pm true).1) g)
    ∧ ((∀ p' ∈ ((set_active_parse_run s f r).1).parsed,
          p'.file_id = f → p'.is_active = true → p'.parse_run_id = r)
      ∧ ∀ g, atMostOneActiveRun s g →
          atMostOneActiveRun ((set_active_parse_run s f r).1) g) := by
  have honly : ∀ p' ∈ ((add_parsed_content s f r t tx pr pm true).1).parsed,
      p'.file_id = f → p'.is_active = true →
        p' = ⟨s.nextParseId, f, r, tx, pr, pm, true, t⟩ := by
    intro p' hp' hpf hpa
    rcases add_parsed_content_mem s f r t tx pr pm p' hp' with hnew | ⟨p, hp, hfile, hid, _, _, hinact⟩
    · exact hnew
    · by_cases h1 : p.file_id = f
      · have hne : p.parse_id ≠ s.nextParseId := Nat.ne_of_lt (hfresh p hp)
        rw [hinact h1 hne] at hpa
        exact absurd hpa (by simp)
      · rw [hfile] at hpf
        exact absurd hpf h1
  refine ⟨⟨add_parsed_content_new_mem s f r t tx pr pm, honly, ?_⟩,
    ⟨fun p' hp' hpf hpa => (set_active_parse_run_mem s f r p' hp').choose_spec.2.2.2.2 hpf hpa,
      fun g hinv => set_active_parse_run_keeps_invariant s f r g hinv⟩⟩
  intro g hinv p' hp' q' hq' hpf hqf hpa hqa
  by_cases hgf : g = f
  · subst hgf
    rw [honly p' hp' hpf hpa, honly q' hq' hqf hqa]
  · rcases add_parsed_content_mem s f r t tx pr pm p' hp' with hnew | ⟨p, hp, hfile, _, hrun, hsame, _⟩
    · rw [hnew] at hpf; exact absurd hpf.symm hgf
    · rcases add_parsed_content_mem s f r t tx pr pm q' hq' with hqnew | ⟨q, hq, hqfile, _, hqrun, hqsame, _⟩
      · rw [hqnew] at hqf; exact absurd hqf.symm hgf
      · have hpne : p.file_id ≠ f := by rw [← hfile, hpf]; exact hgf
        have hqne : q.file_id ≠ f := by rw [← hqfile, hqf]; exact hgf
        rw [hsame hpne] at hpf hpa ⊢
        rw [hqsame hqne] at hqf hqa ⊢
        exact hinv p hp q hq hpf hqf hpa hqa

/-- C1 — witness for `parse_single_active_run` at a concrete state. -/
theorem parse_single_active_run_witness :
    (⟨2, 1, 7, "x", "p", "\x7b\x7d", true, 9⟩ : ParsedRecord)
      ∈ ((add_parsed_content ⟨[⟨1, 1, 3, "a", "p", "\x7b\x7d", true, 4⟩], 2⟩ 1 7 9 "x" "p" "\x7b\x7d" true).1).parsed := by
  exact (parse_single_active_run ⟨[⟨1, 1, 3, "a", "p", "\x7b\x7d", true, 4⟩], 2⟩ 1 7 9 "x" "p" "\x7b\x7d"
    (by decide)).1.1

/-- C2 — counterexample. Starting from one active parsed record for file 1
(inserted through `add_parsed_content`), calling
`set_active_parse_run(1, 2)` where run 2 has no parsed content does return
`false`, but it does NOT leave the state unchanged: the previously active
record for file 1 is deactivated by the first `UPDATE`, which runs before
the match test. -/
theorem set_active_parse_run_changes_state_counterexample :
    (set_active_parse_run ((add_parsed_content ⟨[], 1⟩ 1 1 5 "t" "p" "\x7b\x7d" true).1) 1 2).2 = false
    ∧ (set_active_parse_run ((add_parsed_content ⟨[], 1⟩ 1 1 5 "t" "p" "\x7b\x7d" true).1) 1 2).1
        ≠ (add_parsed_content ⟨[], 1⟩ 1 1 5 "t" "p" "\x7b\x7d" true).1 := by
  constructor
  · decide
  · decide

/-- C2 — amended: when no parsed content exists for `(file_id, parse_run_id)`,
`set_active_parse_run` returns `false` and its only effect is to deactivate
every parsed record of that file (records of other files are untouched); the
state is fully unchanged only in the special case that the file had no active
record to begin with. -/
theorem set_active_parse_run_no_content (s : ParseState) (f r : Nat)
    (h : s.parsed.countP (fun p => p.file_id == f && p.parse_run_id == r) = 0) :
    (set_active_parse_run s f r).2 = false
    ∧ ((set_active_parse_run s f r).1).parsed
        = s.parsed.map (fun p => if p.file_id == f then { p with is_active := false } else p)
    ∧ ((∀ p ∈ s.parsed, p.file_id = f → p.is_active = false) →
        (set_active_parse_run s f r).1 = s) := by
  have hnone : ∀ p ∈ s.parsed, ¬(p.file_id == f && p.parse_run_id == r) = true := by
    intro p hp
    simpa using List.countP_eq_zero.mp h p hp
  have hmap : (s.parsed.map (fun p =>
      if p.file_id == f then { p with is_active := false } else p)).countP
        (fun p => p.file_id == f && p.parse_run_id == r) = 0 := by
    rw [List.countP_eq_zero]
    intro p' hp'
    obtain ⟨p, hp, hstep⟩ := List.mem_map.1 hp'
    have := hnone p hp
    subst hstep
    by_cases h1 : p.file_id = f <;> simp_all
  have hsecond : ∀ l : List ParsedRecord,
      (l.countP (fun p => p.file_id == f && p.parse_run_id == r) = 0) →
      l.map (fun p => if p.file_id == f && p.parse_run_id == r then
        { p with is_active := true } else p) = l := by
    intro l hl
    rw [List.countP_eq_zero] at hl
    apply List.map_congr_left ?_ |>.trans (List.map_id l)
    intro p hp
    simp [hl p hp]
  refine ⟨?_, ?_, ?_⟩
  · unfold set_active_parse_run
    simp only [decide_eq_false_iff_not, not_lt, Nat.le_zero]
    exact hmap
  · unfold set_active_parse_run
    simpa using hsecond _ hmap
  · intro hall
    unfold set_active_parse_run
    simp only [Prod.fst]
    have hfirst : s.parsed.map (fun p =>
        if p.file_id == f then { p with is_active := false } else p) = s.parsed := by
      apply List.map_congr_left ?_ |>.trans (List.map_id s.parsed)
      intro p hp
      by_cases h1 : p.file_id = f
      · have := hall p hp h1
        simp [h1]
        cases p
        simp_all
      · simp [h1]
    rw [hfirst, hsecond _ h]

/-- C2 — witness for `set_active_parse_run_no_content` at a concrete state. -/
theorem set_active_parse_run_no_content_witness :
    (set_active_parse_run ⟨[⟨1, 1, 3, "a", "p", "\x7b\x7d", true, 4⟩], 2⟩ 1 9).2 = false := by
  exact (set_active_parse_run_no_content ⟨[⟨1, 1, 3, "a", "p", "\x7b\x7d", true, 4⟩], 2⟩ 1 9
    (by decide)).1

/-! ### `src/memory/chunks.py` — the `chunk_run` table -/

/-- One row of the `chunk_run` table (`_init_chunk_tables`); `is_active` and
`in_sync` are SQLite 0/1 integers used as booleans. -/
structure ChunkRun where
  id : Nat
  knowledgebase_id : Nat
  framework : String
  parameters : String
  is_active : Bool
  in_sync : Bool
  run_time : Nat
deriving DecidableEq, Repr

/-- The `chunk_run` table with the next `AUTOINCREMENT` id. -/
structure ChunkState where
  runs : List ChunkRun
  nextId : Nat
deriving DecidableEq, Repr

/-- Model of `ChunkingManager.save_chunk_run_config`:
`UPDATE chunk_run SET is_active = 0 WHERE knowledgebase_id = ?`, then
`INSERT` the new run with `is_active = 1, in_sync = 1`; returns the new id.
`now` stands for the row's `CURRENT_TIMESTAMP`. -/
def save_chunk_run_config (s : ChunkState) (kb : Nat) (fw params : String)
    (now : Nat) : ChunkState × Nat :=
  let l1 := s.runs.map (fun c =>
    if c.knowledgebase_id == kb then { c with is_active := false } else c)
  (⟨l1 ++ [⟨s.nextId, kb, fw, params, true, true, now⟩], s.nextId + 1⟩, s.nextId)

/-- Model of `ChunkingManager.set_active_chunk_run`:
`UPDATE chunk_run SET is_active = 0 WHERE knowledgebase_id = ?`, then
`UPDATE chunk_run SET is_active = 1 WHERE id = ?` — note that the second
update does NOT restrict to the given knowledgebase. Returns `None` in the
source, so only the state here. -/
def set_active_chunk_run (s : ChunkState) (kb : Nat) (chunk_run_id : Nat) :
    ChunkState :=
  let l1 := s.runs.map (fun c =>
    if c.knowledgebase_id == kb then { c with is_active := false } else c)
  let l2 := l1.map (fun c =>
    if c.id == chunk_run_id then { c with is_active := true } else c)
  ⟨l2, s.nextId⟩

/-- Model of `ChunkingManager.get_chunk_run_config`: `SELECT … WHERE id = ?` with
`fetchone`, i.e. the first row with that id, `None` when absent. -/
def get_chunk_run_config (s : ChunkState) (chunk_run_id : Nat) : Option ChunkRun :=
  s.runs.find? (fun c => c.id == chunk_run_id)

/-- Model of `SELECT … ORDER BY <key> DESC LIMIT 1`: scan the rows keeping one with
the greatest key.  Shared by the promotion queries of `delete_chunk_run`
(key = id) and `delete_parse_run` (key = time). -/
def pick_latest {α : Type} (f : α → Nat) (l : List α) : Option α :=
  l.foldl (fun acc c => match acc with
    | none => some c
    | some x => if f x < f c then some c else some x) none

/-- Model of `SELECT id FROM chunk_run WHERE knowledgebase_id = ? ORDER BY id DESC
LIMIT 1`: the knowledgebase's run with the greatest id (ids are assigned by
`AUTOINCREMENT`, so this is the most recently created run). -/
def latest_chunk_run (runs : List ChunkRun) (kb : Nat) : Option ChunkRun :=
  pick_latest (fun c => c.id) (runs.filter (fun c => c.knowledgebase_id == kb))

/-- Model of `ChunkingManager.delete_chunk_run`.  The source first calls
`get_chunk_run_config(chunk_run_id)` and immediately subscripts the result
(`chunk_run_to_delete["knowledgebase_id"]`); when no such run exists the
result is Python `None` and the subscript raises `TypeError`, modelled as
`Except.error` (the `except` clause rolls back, logs and re-raises).
Otherwise the row is deleted; `delete_success` is `cur.rowcount > 0`; when
the deleted run was active, the remaining run of the same knowledgebase with
the greatest id (if any) is set active.  The `return False` branch for
`delete_success = false` is kept although it is unreachable once
`get_chunk_run_config` has found the row. -/
def delete_chunk_run (s : ChunkState) (chunk_run_id : Nat) :
    Except String (ChunkState × Bool) :=
  match get_chunk_run_config s chunk_run_id with
  | none => .error "TypeError: NoneType object is not subscriptable"
  | some run =>
    let kb := run.knowledgebase_id
    let delete_success := s.runs.any (fun c => c.id == chunk_run_id)
    let l1 := s.runs.filter (fun c => !(c.id == chunk_run_id))
    let l2 :=
      if delete_success && run.is_active then
        match latest_chunk_run l1 kb with
        | some latest =>
          l1.map (fun c => if c.id == latest.id then { c with is_active := true } else c)
        | none => l1
      else l1
    if delete_success then .ok (⟨l2, s.nextId⟩, true)
    else .ok (s, false)

/-- Model of `ChunkingManager.desync_chunk_runs` without the optional id list:
`UPDATE chunk_run SET in_sync = 0 WHERE knowledgebase_id = ?`; returns the
number of rows updated. -/
def desync_chunk_runs (s : ChunkState) (kb : Nat) : ChunkState × Nat :=
  (⟨s.runs.map (fun c =>
      if c.knowledgebase_id == kb then { c with in_sync := false } else c),
    s.nextId⟩,
   s.runs.countP (fun c => c.knowledgebase_id == kb))

/-- The spec's invariant: at most one active `ChunkRun` per knowledgebase. -/
def atMostOneActiveChunkRun (runs : List ChunkRun) (kb : Nat) : Prop :=
  (runs.filter (fun c => c.knowledgebase_id == kb && c.is_active)).length ≤ 1

section ChunkLemmas

/-- Auxiliary: filtering a mapped list where the map preserves the predicate
and is the identity on elements satisfying it. -/
theorem filter_map_invariant {α : Type} (l : List α) (f : α → α) (p : α → Bool)
    (hpres : ∀ a ∈ l, p (f a) = p a) (hid : ∀ a ∈ l, p a = true → f a = a) :
    (l.map f).filter p = l.filter p := by
  induction l with
  | nil => rfl
  | cons a l ih =>
    simp only [List.map_cons, List.filter_cons, hpres a (List.mem_cons_self a l)]
    have ih' := ih (fun b hb => hpres b (List.mem_cons_of_mem a hb))
      (fun b hb => hid b (List.mem_cons_of_mem a hb))
    by_cases hpa : p a = true
    · rw [hid a (List.mem_cons_self a l) hpa]
      simp [hpa, ih']
    · simp [hpa, ih']

end ChunkLemmas

/-- C6 — counterexample. Reached from the empty database through the public
API alone: create run 1 in knowledgebase 1, run 2 in knowledgebase 2, run 3
in knowledgebase 1 (run 3 active, run 1 now inactive); then call
`set_active_chunk_run(knowledgebase_id := 2, chunk_run_id := 1)`. Its second
`UPDATE` activates run 1 by id without checking the knowledgebase, leaving
knowledgebase 1 with TWO active chunk runs (runs 1 and 3), so the claim that
`set_active_chunk_run` preserves the invariant "for any (knowledgebase_id,
chunk_run_id) arguments" is false. -/
theorem set_active_chunk_run_two_active_counterexample :
    ((set_active_chunk_run
        ((save_chunk_run_config
          ((save_chunk_run_config
            ((save_chunk_run_config ⟨[], 1⟩ 1 "langchain" "\x7b\x7d" 10).1)
            2 "langchain" "\x7b\x7d" 11).1)
          1 "langchain" "\x7b\x7d" 12).1)
        2 1).runs.countP (fun c => c.knowledgebase_id == 1 && c.is_active)) = 2 := by
  decide

/-- C6 — amended: `save_chunk_run_config` always re-establishes the
single-active invariant for its knowledgebase (the new run is the only
active one) and preserves it for every other knowledgebase;
`set_active_chunk_run` preserves the invariant for every knowledgebase
PROVIDED the targeted `chunk_run_id` belongs to the given `knowledgebase_id`
(ids being unique, as `AUTOINCREMENT` guarantees) — for mismatched arguments
it can violate the invariant, as the counterexample shows. -/
theorem chunk_run_single_active (s : ChunkState) (kb r now : Nat) (fw pm : String)
    (hb : ∀ c ∈ s.runs, c.id = r → c.knowledgebase_id = kb)
    (hu : s.runs.countP (fun c => c.id == r) ≤ 1) :
    (((save_chunk_run_config s kb fw pm now).1).runs.filter
        (fun c => c.knowledgebase_id == kb && c.is_active)
      = [⟨s.nextId, kb, fw, pm, true, true, now⟩])
    ∧ (∀ g, atMostOneActiveChunkRun s.runs g →
        atMostOneActiveChunkRun ((save_chunk_run_config s kb fw pm now).1).runs g)
    ∧ (∀ g, atMostOneActiveChunkRun s.runs g →
        atMostOneActiveChunkRun (set_active_chunk_run s kb r).runs g) := by
  have hdeact : ∀ l : List ChunkRun,
      (l.map (fun c => if c.knowledgebase_id == kb then { c with is_active := false } else c)).filter
        (fun c => c.knowledgebase_id == kb && c.is_active) = [] := by
    intro l
    rw [List.filter_eq_nil_iff]
    intro c' hc'
    obtain ⟨c, _, hstep⟩ := List.mem_map.1 hc'
    subst hstep
    by_cases h1 : c.knowledgebase_id = kb <;> simp [h1]
  have hsaveA : ((save_chunk_run_config s kb fw pm now).1).runs.filter
      (fun c => c.knowledgebase_id == kb && c.is_active)
      = [⟨s.nextId, kb, fw, pm, true, true, now⟩] := by
    simp only [save_chunk_run_config]
    rw [List.filter_append, hdeact]
    simp
  refine ⟨hsaveA, ?_, ?_⟩
  · intro g hinv
    by_cases hg : g = kb
    · subst hg
      unfold atMostOneActiveChunkRun
      rw [hsaveA]
      simp
    · unfold atMostOneActiveChunkRun at hinv ⊢
      simp only [save_chunk_run_config]
      rw [List.filter_append]
      have hkbg : (kb == g) = false := by
        simp only [beq_eq_false_iff_ne, ne_eq]
        exact fun h => hg h.symm
      have hnew : ([(⟨s.nextId, kb, fw, pm, true, true, now⟩ : ChunkRun)].filter
          (fun c => c.knowledgebase_id == g && c.is_active)) = [] := by
        simp [List.filter, hkbg]
      rw [hnew, List.append_nil]
      rw [filter_map_invariant]
      · exact hinv
      · intro c _
        by_cases h1 : c.knowledgebase_id = kb
        · simp [h1, hkbg]
        · simp [h1]
      · intro c _ hc
        by_cases h1 : c.knowledgebase_id = kb
        · rw [h1] at hc
          simp [hkbg] at hc
        · simp [h1]
  · intro g hinv
    unfold atMostOneActiveChunkRun at hinv ⊢
    simp only [set_active_chunk_run]
    by_cases hg : g = kb
    · subst hg
      rw [← List.countP_eq_length_filter, List.map_map, List.countP_map]
      calc s.runs.countP _ ≤ s.runs.countP (fun c => c.id == r) := by
            apply List.countP_mono_left
            intro c _ hc
            simp only [Function.comp] at hc
            by_cases h2 : c.id = r
            · simp [h2]
            · by_cases h1 : c.knowledgebase_id = g
              · simp [h1, h2] at hc
              · simp [h1, h2] at hc
        _ ≤ 1 := hu
    · have hkbg : (kb == g) = false := by
        simp only [beq_eq_false_iff_ne, ne_eq]
        exact fun h => hg h.symm
      rw [List.map_map, filter_map_invariant]
      · exact hinv
      · intro c hc
        simp only [Function.comp]
        by_cases h2 : c.id = r
        · have hckb := hb c hc h2
          by_cases h1 : c.knowledgebase_id = kb
          · simp [h1, h2, hkbg]
          · exact absurd hckb h1
        · by_cases h1 : c.knowledgebase_id = kb
          · simp [h1, h2, hkbg]
          · simp [h1, h2]
      · intro c hc hcp
        simp only [Function.comp]
        have h1 : c.knowledgebase_id ≠ kb := by
          intro h1
          rw [h1] at hcp
          simp [hkbg] at hcp
        have h2 : c.id ≠ r := by
          intro h2
          exact h1 (hb c hc h2)
        simp [h1, h2]

/-- C6 — witness for `chunk_run_single_active` at a concrete state. -/
theorem chunk_run_single_active_witness :
    ((save_chunk_run_config ⟨[⟨1, 1, "langchain", "\x7b\x7d", true, true, 3⟩], 2⟩ 1 "c" "\x7b\x7d" 9).1).runs.filter
        (fun c => c.knowledgebase_id == 1 && c.is_active)
      = [⟨2, 1, "c", "\x7b\x7d", true, true, 9⟩] := by
  exact (chunk_run_single_active ⟨[⟨1, 1, "langchain", "\x7b\x7d", true, true, 3⟩], 2⟩ 1 1 9 "c" "\x7b\x7d"
    (by decide) (by decide)).1

/-- C5 — evaluation of `delete_chunk_run` at concrete inputs.
(1) Deleting the active run 2 of knowledgebase 1 while runs 1 and 3 remain
promotes run 3 — the remaining run with the greatest (most recently created)
id — to active.  (2) Deleting the last run of a knowledgebase leaves none
active.  (3) THE BUG: on an id with no `chunk_run` record the source does
not reach its `return False` branch — `get_chunk_run_config` returns `None`
and `chunk_run_to_delete["knowledgebase_id"]` raises `TypeError`, which the
`except` clause re-raises; the call is an exception, not a `False` no-op. -/
theorem delete_chunk_run_eval :
    (delete_chunk_run
        ⟨[⟨1, 1, "l", "\x7b\x7d", false, true, 10⟩, ⟨2, 1, "l", "\x7b\x7d", true, true, 11⟩,
          ⟨3, 1, "l", "\x7b\x7d", false, true, 12⟩], 4⟩ 2
      = .ok (⟨[⟨1, 1, "l", "\x7b\x7d", false, true, 10⟩, ⟨3, 1, "l", "\x7b\x7d", true, true, 12⟩], 4⟩, true))
    ∧ (delete_chunk_run ⟨[⟨1, 1, "l", "\x7b\x7d", true, true, 10⟩], 2⟩ 1 = .ok (⟨[], 2⟩, true))
    ∧ (delete_chunk_run ⟨[⟨1, 1, "l", "\x7b\x7d", true, true, 10⟩], 2⟩ 999
      = .error "TypeError: NoneType object is not subscriptable") := by
  refine ⟨?_, ?_, ?_⟩ <;> rfl

section PickLatestLemmas

/-- Folding the max-picking step returns an element whose key dominates the
scanned list and any initial candidate. -/
theorem pick_latest_foldl_spec {α : Type} (f : α → Nat) :
    ∀ (l : List α) (init : Option α) (m : α),
      l.foldl (fun acc c => match acc with
        | none => some c
        | some x => if f x < f c then some c else some x) init = some m →
      (init = some m ∨ m ∈ l) ∧ (∀ c ∈ l, f c ≤ f m) ∧
      (∀ i, init = some i → f i ≤ f m) := by
  intro l
  induction l with
  | nil =>
    intro init m h
    simp only [List.foldl_nil] at h
    refine ⟨Or.inl h, by simp, ?_⟩
    intro i hi
    rw [h] at hi
    injection hi with h'
    rw [h']
  | cons a l ih =>
    intro init m h
    rw [List.foldl_cons] at h
    cases init with
    | none =>
      obtain ⟨h1, h2, h3⟩ := ih (some a) m h
      have hfa : f a ≤ f m := h3 a rfl
      refine ⟨Or.inr ?_, ?_, ?_⟩
      · rcases h1 with h1 | h1
        · injection h1 with h1
          subst h1
          exact List.mem_cons_self _ _
        · exact List.mem_cons_of_mem _ h1
      · intro c hc
        rcases List.mem_cons.1 hc with rfl | hc
        · exact hfa
        · exact h2 c hc
      · intro i hi
        exact Option.noConfusion hi
    | some x =>
      by_cases hlt : f x < f a
      · rw [show (match some x with
            | none => some a
            | some y => if f y < f a then some a else some y) = some a from by
            simp [hlt]] at h
        obtain ⟨h1, h2, h3⟩ := ih (some a) m h
        have hfa : f a ≤ f m := h3 a rfl
        refine ⟨Or.inr ?_, ?_, ?_⟩
        · rcases h1 with h1 | h1
          · injection h1 with h1
            subst h1
            exact List.mem_cons_self _ _
          · exact List.mem_cons_of_mem _ h1
        · intro c hc
          rcases List.mem_cons.1 hc with rfl | hc
          · exact hfa
          · exact h2 c hc
        · intro i hi
          injection hi with hi
          subst hi
          exact le_of_lt (lt_of_lt_of_le hlt hfa)
      · rw [show (match some x with
            | none => some a
            | some y => if f y < f a then some a else some y) = some x from by
            simp [hlt]] at h
        obtain ⟨h1, h2, h3⟩ := ih (some x) m h
        have hfx : f x ≤ f m := h3 x rfl
        refine ⟨?_, ?_, ?_⟩
        · rcases h1 with h1 | h1
          · exact Or.inl h1
          · exact Or.inr (List.mem_cons_of_mem _ h1)
        · intro c hc
          rcases List.mem_cons.1 hc with rfl | hc
          · exact le_trans (Nat.le_of_not_lt hlt) hfx
          · exact h2 c hc
        · intro i hi
          injection hi with hi
          subst hi
          exact hfx

/-- Lemma: `pick_latest` returns a member of the list with a maximal key. -/
theorem pick_latest_spec {α : Type} (f : α → Nat) (l : List α) (m : α)
    (h : pick_latest f l = some m) : m ∈ l ∧ ∀ c ∈ l, f c ≤ f m := by
  obtain ⟨h1, h2, _⟩ := pick_latest_foldl_spec f l none m h
  rcases h1 with h1 | h1
  · exact Option.noConfusion h1
  · exact ⟨h1, h2⟩

end PickLatestLemmas

/-! ### `src/memory/parse.py` — `delete_parse_run` -/

/-- The columns of the `files` table that `delete_parse_run` reads
(`SELECT file_id, type, knowledgebase_id FROM files WHERE filepath = ?`). -/
structure FileRec where
  file_id : Nat
  filepath : String
  type : String
  knowledgebase_id : Nat
deriving DecidableEq, Repr

/-- Model of `SELECT parse_id FROM parsed WHERE file_id = ? ORDER BY time DESC
LIMIT 1` (and the folder variant that selects `parse_run_id`): the record
for the file with the greatest timestamp. -/
def latest_parsed (l : List ParsedRecord) (fid : Nat) : Option ParsedRecord :=
  pick_latest (fun p => p.time) (l.filter (fun p => p.file_id == fid))

/-- Model of `ParserManager.delete_parse_run`.  Looks the file up by path (raising
`ValueError` when absent, modelled as `Except.error`).  For a plain file:
remember whether the `(parse_run_id, file_id)` parsed record was active
(`fetchone`, i.e. the first matching row), delete the matching rows, and if
the deleted record was active promote the remaining record of the file with
the greatest timestamp.  For a folder: collect the files at or under the
path (the SQL `LIKE` patterns `path/%` and `path\\%` become `startsWith`),
remember which of them had the deleted record active, delete the matching
rows for all of them, and per such file activate the rows of the
latest-by-time remaining record's `parse_run_id`.  Finally
`UPDATE chunk_run SET in_sync = 0 WHERE knowledgebase_id = ?` — the
invalidation cascade — runs in the same operation before the commit. -/
def delete_parse_run (files : List FileRec) (s : ParseState) (cs : ChunkState)
    (parse_run_id : Nat) (filepath : String) :
    Except String (ParseState × ChunkState) :=
  match files.find? (fun g => g.filepath == filepath) with
  | none => .error ("ValueError: File with filepath " ++ filepath ++ " not found")
  | some fi =>
    let parsed2 :=
      if fi.type == "file" then
        let was_active := ((s.parsed.find? (fun p =>
          p.parse_run_id == parse_run_id && p.file_id == fi.file_id)).map
            (fun p => p.is_active)).getD false
        let l1 := s.parsed.filter (fun p =>
          !(p.parse_run_id == parse_run_id && p.file_id == fi.file_id))
        if was_active then
          match latest_parsed l1 fi.file_id with
          | some lp => l1.map (fun p =>
              if p.parse_id == lp.parse_id then { p with is_active := true } else p)
          | none => l1
        else l1
      else
        let folder_file_ids := (files.filter (fun g => g.filepath == filepath
          || g.filepath.startsWith (filepath ++ "/")
          || g.filepath.startsWith (filepath ++ "\\"))).map (fun g => g.file_id)
        if folder_file_ids.isEmpty then s.parsed
        else
          let files_with_active_deletion := folder_file_ids.filter (fun fid =>
            ((s.parsed.find? (fun p =>
              p.parse_run_id == parse_run_id && p.file_id == fid)).map
                (fun p => p.is_active)).getD false)
          let l1 := s.parsed.filter (fun p =>
            !(p.parse_run_id == parse_run_id && folder_file_ids.contains p.file_id))
          files_with_active_deletion.foldl (fun acc fid =>
            match latest_parsed acc fid with
            | some lp => acc.map (fun p =>
                if p.parse_run_id == lp.parse_run_id && p.file_id == fid then
                  { p with is_active := true } else p)
            | none => acc) l1
    let cs2 : ChunkState := ⟨cs.runs.map (fun c =>
      if c.knowledgebase_id == fi.knowledgebase_id then { c with in_sync := false } else c),
      cs.nextId⟩
    .ok (⟨parsed2, s.nextParseId⟩, cs2)

/-- Lemma: `pick_latest` yields a result on every nonempty list. -/
theorem pick_latest_isSome {α : Type} (f : α → Nat) :
    ∀ (l : List α) (x : α),
      (l.foldl (fun acc c => match acc with
        | none => some c
        | some y => if f y < f c then some c else some y) (some x)).isSome := by
  intro l
  induction l with
  | nil => intro x; rfl
  | cons b l ih =>
    intro x
    rw [List.foldl_cons]
    by_cases h : f x < f b
    · simpa [h] using ih b
    · simpa [h] using ih x

/-- C7 — deleting the parsed record that was active for a file promotes the
remaining record of that file with the greatest timestamp (when one exists)
and, in the same operation, marks every chunk run of the file's
knowledgebase out of sync. -/
theorem delete_parse_run_promotes_and_desyncs
    (files : List FileRec) (s : ParseState) (cs : ChunkState) (rid : Nat) (fp : String)
    (fi : FileRec) (p0 : ParsedRecord)
    (hfind : files.find? (fun g => g.filepath == fp) = some fi)
    (htype : fi.type = "file")
    (hfound : s.parsed.find? (fun p =>
      p.parse_run_id == rid && p.file_id == fi.file_id) = some p0)
    (hact : p0.is_active = true) :
    ∃ s' cs', delete_parse_run files s cs rid fp = .ok (s', cs')
    ∧ (∀ c ∈ cs'.runs, c.knowledgebase_id = fi.knowledgebase_id → c.in_sync = false)
    ∧ (let remaining := s.parsed.filter (fun p =>
        !(p.parse_run_id == rid && p.file_id == fi.file_id))
      (remaining.filter (fun p => p.file_id == fi.file_id) ≠ [] →
        ∃ lp, latest_parsed remaining fi.file_id = some lp)
      ∧ (latest_parsed remaining fi.file_id = none → s'.parsed = remaining)
      ∧ ∀ lp, latest_parsed remaining fi.file_id = some lp →
          lp ∈ remaining ∧ lp.file_id = fi.file_id
          ∧ (∀ q ∈ remaining, q.file_id = fi.file_id → q.time ≤ lp.time)
          ∧ ({ lp with is_active := true } : ParsedRecord) ∈ s'.parsed) := by
  have hbt : (fi.type == "file") = true := by rw [htype]; rfl
  refine ⟨⟨(match latest_parsed (s.parsed.filter (fun p =>
      !(p.parse_run_id == rid && p.file_id == fi.file_id))) fi.file_id with
    | some lp => (s.parsed.filter (fun p =>
        !(p.parse_run_id == rid && p.file_id == fi.file_id))).map (fun p =>
          if p.parse_id == lp.parse_id then { p with is_active := true } else p)
    | none => s.parsed.filter (fun p =>
        !(p.parse_run_id == rid && p.file_id == fi.file_id))), s.nextParseId⟩,
    ⟨cs.runs.map (fun c =>
      if c.knowledgebase_id == fi.knowledgebase_id then { c with in_sync := false } else c),
      cs.nextId⟩, ?_, ?_, ?_, ?_, ?_⟩
  · simp [delete_parse_run, hfind, hbt, hfound, hact]
  · intro c' hc' hkb
    obtain ⟨c, _, hstep⟩ := List.mem_map.1 hc'
    subst hstep
    by_cases h1 : c.knowledgebase_id = fi.knowledgebase_id
    · simp [h1]
    · by_cases h2 : (c.knowledgebase_id == fi.knowledgebase_id) = true
      · exact absurd (beq_iff_eq.1 h2) h1
      · rw [Bool.not_eq_true] at h2
        rw [if_neg (by simp [h2])] at hkb ⊢
        exact absurd hkb h1
  · intro hne
    unfold latest_parsed
    cases hfold : pick_latest (fun p => p.time)
        ((s.parsed.filter (fun p =>
          !(p.parse_run_id == rid && p.file_id == fi.file_id))).filter
            (fun p => p.file_id == fi.file_id)) with
    | some lp => exact ⟨lp, rfl⟩
    | none =>
      exfalso
      rcases hl : (s.parsed.filter (fun p =>
          !(p.parse_run_id == rid && p.file_id == fi.file_id))).filter
            (fun p => p.file_id == fi.file_id) with _ | ⟨a, l⟩
      · exact hne hl
      · rw [hl] at hfold
        unfold pick_latest at hfold
        rw [List.foldl_cons] at hfold
        have := pick_latest_isSome (fun p => p.time) l a
        rw [hfold] at this
        simp at this
  · intro hnone
    rw [hnone]
  · intro lp hsome
    have hsome' := hsome
    unfold latest_parsed at hsome'
    obtain ⟨hmem, hmax⟩ := pick_latest_spec (fun p => p.time) _ lp hsome' 
    obtain ⟨hmem', hfile⟩ := List.mem_filter.1 hmem
    refine ⟨hmem', beq_iff_eq.1 hfile, ?_, ?_⟩
    · intro q hq hqf
      exact hmax q (List.mem_filter.2 ⟨hq, beq_iff_eq.2 hqf⟩)
    · rw [hsome]
      refine List.mem_map.2 ⟨lp, hmem', ?_⟩
      simp

/-- C7 — witness for `delete_parse_run_promotes_and_desyncs` at a concrete
database: deleting active run 1 of file 1 promotes the remaining record
(run 2, time 7) and desyncs knowledgebase 1's chunk run. -/
theorem delete_parse_run_promotes_witness :
    ∃ s' cs', delete_parse_run [⟨1, "a.md", "file", 1⟩]
        ⟨[⟨1, 1, 1, "x", "p", "\x7b\x7d", true, 5⟩, ⟨2, 1, 2, "y", "p", "\x7b\x7d", false, 7⟩], 3⟩
        ⟨[⟨1, 1, "l", "\x7b\x7d", true, true, 6⟩], 2⟩ 1 "a.md" = .ok (s', cs')
    ∧ (∀ c ∈ cs'.runs, c.knowledgebase_id = (⟨1, "a.md", "file", 1⟩ : FileRec).knowledgebase_id → c.in_sync = false)
    ∧ (let remaining := ([⟨1, 1, 1, "x", "p", "\x7b\x7d", true, 5⟩, ⟨2, 1, 2, "y", "p", "\x7b\x7d", false, 7⟩] : List ParsedRecord).filter (fun p =>
        !(p.parse_run_id == 1 && p.file_id == (⟨1, "a.md", "file", 1⟩ : FileRec).file_id))
      (remaining.filter (fun p => p.file_id == (⟨1, "a.md", "file", 1⟩ : FileRec).file_id) ≠ [] →
        ∃ lp, latest_parsed remaining (⟨1, "a.md", "file", 1⟩ : FileRec).file_id = some lp)
      ∧ (latest_parsed remaining (⟨1, "a.md", "file", 1⟩ : FileRec).file_id = none → s'.parsed = remaining)
      ∧ ∀ lp, latest_parsed remaining (⟨1, "a.md", "file", 1⟩ : FileRec).file_id = some lp →
          lp ∈ remaining ∧ lp.file_id = (⟨1, "a.md", "file", 1⟩ : FileRec).file_id
          ∧ (∀ q ∈ remaining, q.file_id = (⟨1, "a.md", "file", 1⟩ : FileRec).file_id → q.time ≤ lp.time)
          ∧ ({ lp with is_active := true } : ParsedRecord) ∈ s'.parsed) := by
  exact delete_parse_run_promotes_and_desyncs [⟨1, "a.md", "file", 1⟩]
    ⟨[⟨1, 1, 1, "x", "p", "\x7b\x7d", true, 5⟩, ⟨2, 1, 2, "y", "p", "\x7b\x7d", false, 7⟩], 3⟩
    ⟨[⟨1, 1, "l", "\x7b\x7d", true, true, 6⟩], 2⟩ 1 "a.md" ⟨1, "a.md", "file", 1⟩
    ⟨1, 1, 1, "x", "p", "\x7b\x7d", true, 5⟩ (by rfl) (by rfl) (by rfl) (by rfl)

/-! ### `src/memory/index.py` — the `index_run` table -/

/-- One row of the `index_run` table (`_init_db_tables`), which carries
`UNIQUE(chunk_run_id, embedding_configure_id)`. -/
structure IndexRun where
  id : Nat
  chunk_run_id : Nat
  embedding_configure_id : String
  run_time : Nat
deriving DecidableEq, Repr

/-- The `index_run` table with the next `AUTOINCREMENT` id. -/
structure IndexState where
  runs : List IndexRun
  nextId : Nat
deriving DecidableEq, Repr

/-- Model of `IndexManager.create_index_run`: `INSERT INTO index_run …`.  A violation
of the `UNIQUE(chunk_run_id, embedding_configure_id)` constraint raises
`sqlite3.IntegrityError`, which the method catches and converts into
`(False, fail_reason)` with the duplicate message; on success it returns
`(cur.rowcount > 0, "")`, i.e. `(True, "")`.  `now` stands for the row's
`CURRENT_TIMESTAMP`. -/
def create_index_run (s : IndexState) (chunk_run_id : Nat)
    (embedding_configure_id : String) (now : Nat) : IndexState × Bool × String :=
  if s.runs.any (fun r => r.chunk_run_id == chunk_run_id
      && r.embedding_configure_id == embedding_configure_id) then
    (s, false, "Index run already exists for chunk_run_id " ++ toString chunk_run_id
      ++ " and embedding_configure_id " ++ embedding_configure_id)
  else
    (⟨s.runs ++ [⟨s.nextId, chunk_run_id, embedding_configure_id, now⟩], s.nextId + 1⟩,
      true, "")

/-- Model of `IndexManager.delete_index_run`: `DELETE FROM index_run WHERE id = ?`
followed by `commit` and `return True` — the boolean does not depend on how
many rows were deleted; only an exception would produce `False`. -/
def delete_index_run (s : IndexState) (id : Nat) : IndexState × Bool :=
  (⟨s.runs.filter (fun r => !(r.id == id)), s.nextId⟩, true)

/-- C3 — `create_index_run` called twice with the same pair: the first call
succeeds with `(true, "")`, the second returns `(false, duplicate-binding
reason)` without raising and without touching the state, and exactly one
`index_run` row for the pair exists afterwards. -/
theorem create_index_run_twice (s : IndexState) (c : Nat) (e : String) (n1 n2 : Nat)
    (h : s.runs.countP (fun r => r.chunk_run_id == c && r.embedding_configure_id == e) = 0) :
    (create_index_run s c e n1).2 = (true, "")
    ∧ (create_index_run (create_index_run s c e n1).1 c e n2).2
      = (false, "Index run already exists for chunk_run_id " ++ toString c
          ++ " and embedding_configure_id " ++ e)
    ∧ (create_index_run (create_index_run s c e n1).1 c e n2).1
      = (create_index_run s c e n1).1
    ∧ ((create_index_run (create_index_run s c e n1).1 c e n2).1).runs.countP
        (fun r => r.chunk_run_id == c && r.embedding_configure_id == e) = 1 := by
  have hnone : (s.runs.any (fun r => r.chunk_run_id == c
      && r.embedding_configure_id == e)) = false := by
    rw [Bool.eq_false_iff, ne_eq, List.any_eq_true]
    rintro ⟨r, hr, hpred⟩
    have := List.countP_eq_zero.mp h r hr
    exact this hpred
  have hfst : (create_index_run s c e n1).1
      = ⟨s.runs ++ [⟨s.nextId, c, e, n1⟩], s.nextId + 1⟩ := by
    simp [create_index_run, hnone]
  have hdup : ((⟨s.runs ++ [⟨s.nextId, c, e, n1⟩], s.nextId + 1⟩ : IndexState)).runs.any
      (fun r => r.chunk_run_id == c && r.embedding_configure_id == e) = true := by
    simp
  refine ⟨by simp [create_index_run, hnone], ?_, ?_, ?_⟩
  · rw [hfst]
    simp [create_index_run, hdup]
  · rw [hfst]
    simp [create_index_run, hdup]
  · rw [hfst]
    simp only [create_index_run, hdup, if_true]
    rw [List.countP_append, h]
    simp

/-- C3 — witness for `create_index_run_twice` at the spec's example
(`chunkRunId = 5`, `embeddingConfigId = "e1"`). -/
theorem create_index_run_twice_witness :
    (create_index_run (⟨[], 1⟩ : IndexState) 5 "e1" 10).2 = (true, "") := by
  exact (create_index_run_twice ⟨[], 1⟩ 5 "e1" 10 11 (by decide)).1

/-- C10 — `delete_index_run` returns `true` whenever the `DELETE` statement
itself does not raise, in particular also when no row with the given id
exists (in which case the state is unchanged as well). -/
theorem delete_index_run_returns_true (s : IndexState) (id : Nat) :
    (delete_index_run s id).2 = true
    ∧ ((∀ r ∈ s.runs, r.id ≠ id) → (delete_index_run s id).1 = s) := by
  refine ⟨rfl, ?_⟩
  intro habs
  unfold delete_index_run
  have : s.runs.filter (fun r => !(r.id == id)) = s.runs := by
    rw [List.filter_eq_self]
    intro r hr
    simpa using habs r hr
  rw [this]

/-- C10 — witness for `delete_index_run_returns_true` on a table without the
deleted id. -/
theorem delete_index_run_returns_true_witness :
    (delete_index_run (⟨[⟨1, 5, "e1", 10⟩], 2⟩ : IndexState) 999).2 = true
    ∧ (delete_index_run (⟨[⟨1, 5, "e1", 10⟩], 2⟩ : IndexState) 999).1
      = (⟨[⟨1, 5, "e1", 10⟩], 2⟩ : IndexState) := by
  have h := delete_index_run_returns_true ⟨[⟨1, 5, "e1", 10⟩], 2⟩ 999
  exact ⟨h.1, h.2 (by decide)⟩

/-! ### `src/retriever/retrievers.py` and `src/file_process/indexer.py`

A langchain `Document` as the retrievers use it: its metadata lookup
`doc.metadata.get('chunk_id', id(doc))` either yields the chunk id string or
falls back to the CPython object identity, modelled by an explicit `obj_id`.
The external FAISS vector store and the langchain `BM25Retriever` are
collaborators outside this repository; they enter the model as function
parameters (`vectorstore`, `invoke`) constrained only at their interface. -/
structure Doc where
  chunk_id : Option String
  obj_id : Nat
  page_content : String
deriving DecidableEq, Repr

/-- Model of `doc.metadata.get('chunk_id', id(doc))` — the fusion identity of a
candidate. -/
def doc_id (d : Doc) : String ⊕ Nat :=
  match d.chunk_id with
  | some c => .inl c
  | none => .inr d.obj_id

/-- The state of an `Indexer` as the retrievers read it: the (possibly
uninitialized) vector store, modelled as its similarity-search function, and
the `all_docs` mirror list. -/
structure Indexer where
  vectorstore : Option (String → Nat → List (Doc × ℚ))
  all_docs : List Doc

/-- Model of `VectorRetriever.retrieve`: raises `ValueError` when
`self.indexer.vectorstore` is falsy, otherwise delegates to
`similarity_search_with_relevance_scores(query, k=k)`. -/
def vector_retrieve (ix : Indexer) (query : String) (k : Nat) :
    Except String (List (Doc × ℚ)) :=
  match ix.vectorstore with
  | none => .error "Vectorstore not initialized in Indexer"
  | some vs => .ok (vs query k)

/-- Model of `BM25BasedRetriever.retrieve`: build a `BM25Retriever` from
`self.indexer.all_docs` (the external `invoke` parameter), then attach the
rank-based dummy scores `1.0 - (i / k)`. -/
def bm25_retrieve (invoke : List Doc → String → Nat → List Doc)
    (ix : Indexer) (query : String) (k : Nat) : List (Doc × ℚ) :=
  let documents := invoke ix.all_docs query k
  documents.enum.map (fun p => (p.2, 1 - (p.1 : ℚ) / (k : ℚ)))

/-- One `fused_scores[doc_id]['score'] += 1 / (rank + k_rrf)` step of
`FusionRetriever.retrieve`, including the insertion with initial score 0
when the key is absent.  The dict is modelled as an association list in
insertion order, keeping the first-inserted document for a key. -/
def rrf_add (fused : List ((String ⊕ Nat) × Doc × ℚ)) (d : Doc) (contrib : ℚ) :
    List ((String ⊕ Nat) × Doc × ℚ) :=
  if fused.any (fun e => decide (e.1 = doc_id d)) then
    fused.map (fun e => if e.1 = doc_id d then (e.1, e.2.1, e.2.2 + contrib) else e)
  else
    fused ++ [(doc_id d, d, contrib)]

/-- One `for rank, (doc, score) in enumerate(results)` loop of
`FusionRetriever.retrieve`, with `k_rrf = 60`. -/
def rrf_process (fused : List ((String ⊕ Nat) × Doc × ℚ))
    (results : List (Doc × ℚ)) : List ((String ⊕ Nat) × Doc × ℚ) :=
  results.enum.foldl (fun acc p => rrf_add acc p.2.1 (1 / ((p.1 : ℚ) + 60))) fused

/-- The fused-score dict after processing the vector results and then the
BM25 results. -/
def rrf_fused (vector_results bm25_results : List (Doc × ℚ)) :
    List ((String ⊕ Nat) × Doc × ℚ) :=
  rrf_process (rrf_process [] vector_results) bm25_results

/-- The fused score recorded for identity `i` (0 when absent). -/
def score_of (fused : List ((String ⊕ Nat) × Doc × ℚ)) (i : String ⊕ Nat) : ℚ :=
  match fused.find? (fun e => decide (e.1 = i)) with
  | some e => e.2.2
  | none => 0

/-- The reciprocal-rank contribution of one ranked list to identity `i`:
the sum of `1 / (rank + 60)` over the 0-based positions at which `i`
appears. -/
def rrf_contrib (results : List (Doc × ℚ)) (i : String ⊕ Nat) : ℚ :=
  (((results.enum).filter (fun p => decide (doc_id p.2.1 = i))).map
    (fun p => 1 / ((p.1 : ℚ) + 60))).sum

/-- Model of `sorted(…, key=lambda x: x[1], reverse=True)[:k]` — Python's sort is
stable, modelled by the stable `insertionSort` under the descending-score
relation — applied to the dict's values in insertion order. -/
def rrf_combine (vector_results bm25_results : List (Doc × ℚ)) (k : Nat) :
    List (Doc × ℚ) :=
  (((rrf_fused vector_results bm25_results).map (fun e => e.2)).insertionSort
    (fun a b => b.2 ≤ a.2)).take k

/-- Model of `FusionRetriever.retrieve`: fetch `k*2` results from the vector and BM25
retrievers over the same indexer and fuse them with reciprocal rank fusion. -/
def fusion_retrieve (invoke : List Doc → String → Nat → List Doc)
    (ix : Indexer) (query : String) (k : Nat) : Except String (List (Doc × ℚ)) :=
  match vector_retrieve ix query (k * 2) with
  | .error e => .error e
  | .ok vector_results =>
    .ok (rrf_combine vector_results (bm25_retrieve invoke ix query (k * 2)) k)


section RRFLemmas

/-- Lemma: `find?` by key commutes with a map that preserves keys. -/
theorem find?_map_keep_key (l : List ((String ⊕ Nat) × Doc × ℚ))
    (f : (String ⊕ Nat) × Doc × ℚ → (String ⊕ Nat) × Doc × ℚ)
    (hk : ∀ e, (f e).1 = e.1) (i : String ⊕ Nat) :
    (l.map f).find? (fun e => decide (e.1 = i))
      = (l.find? (fun e => decide (e.1 = i))).map f := by
  induction l with
  | nil => rfl
  | cons e l ih =>
    by_cases hei : e.1 = i
    · rw [List.map_cons, List.find?_cons_of_pos _ (by simp [hk, hei]),
        List.find?_cons_of_pos _ (by simp [hei])]
      rfl
    · rw [List.map_cons, List.find?_cons_of_neg _ (by simp [hk, hei]),
        List.find?_cons_of_neg _ (by simp [hei]), ih]

/-- The effect of one `rrf_add` step on the recorded score of any identity:
the document's own identity gains `contrib`, every other identity is
unchanged. -/
theorem score_of_rrf_add (fused : List ((String ⊕ Nat) × Doc × ℚ))
    (d : Doc) (c : ℚ) (i : String ⊕ Nat) :
    score_of (rrf_add fused d c) i
      = score_of fused i + (if i = doc_id d then c else 0) := by
  by_cases ha : (fused.any (fun e => decide (e.1 = doc_id d))) = true
  · have hmap : rrf_add fused d c = fused.map
        (fun e => if e.1 = doc_id d then (e.1, e.2.1, e.2.2 + c) else e) := by
      simp [rrf_add, ha]
    rw [hmap]
    unfold score_of
    rw [find?_map_keep_key _ _ (by intro e; by_cases h : e.1 = doc_id d <;> simp [h]) i]
    by_cases hid : i = doc_id d
    · obtain ⟨e0, he0mem, he0⟩ := List.any_eq_true.1 ha
      have hsome : (fused.find? (fun e => decide (e.1 = i))).isSome := by
        rw [List.find?_isSome]
        refine ⟨e0, he0mem, ?_⟩
        rw [hid]
        exact he0
      obtain ⟨e1, he1⟩ := Option.isSome_iff_exists.1 hsome
      have he1key : e1.1 = i := by
        have := List.find?_some he1
        simpa using this
      rw [he1]
      simp [he1key, hid]
    · cases hf : fused.find? (fun e => decide (e.1 = i)) with
      | none => simp [hid]
      | some e1 =>
        have he1key : e1.1 = i := by
          have := List.find?_some hf
          simpa using this
        have hne : ¬ e1.1 = doc_id d := by rw [he1key]; exact hid
        simp [hne, hid]
  · have happ : rrf_add fused d c = fused ++ [(doc_id d, d, c)] := by
      simp [rrf_add, ha]
    rw [happ]
    unfold score_of
    rw [List.find?_append]
    by_cases hid : i = doc_id d
    · have hnone : fused.find? (fun e => decide (e.1 = i)) = none := by
        rw [List.find?_eq_none]
        intro e he
        simp only [decide_eq_true_eq]
        intro hkey
        exact ha (List.any_eq_true.2 ⟨e, he, by simp [hkey, ← hid]⟩)
      rw [hnone]
      simp [hid]
    · have hnone2 : ([((doc_id d, d, c) : (String ⊕ Nat) × Doc × ℚ)].find?
          (fun e => decide (e.1 = i))) = none := by
        simp [Ne.symm hid]
      rw [hnone2]
      cases fused.find? (fun e => decide (e.1 = i)) with
      | none => simp [hid]
      | some e1 => simp [hid]

end RRFLemmas

/-- Processing one ranked list from rank offset `n` adds, for every identity,
the reciprocal-rank contributions of the positions where it occurs. -/
theorem score_of_rrf_foldl (l : List (Doc × ℚ)) :
    ∀ (n : Nat) (acc : List ((String ⊕ Nat) × Doc × ℚ)) (i : String ⊕ Nat),
      score_of ((List.enumFrom n l).foldl
          (fun acc p => rrf_add acc p.2.1 (1 / ((p.1 : ℚ) + 60))) acc) i
        = score_of acc i
          + (((List.enumFrom n l).filter (fun p => decide (doc_id p.2.1 = i))).map
              (fun p => 1 / ((p.1 : ℚ) + 60))).sum := by
  induction l with
  | nil =>
    intro n acc i
    simp
  | cons x l ih =>
    intro n acc i
    rw [List.enumFrom_cons, List.foldl_cons, ih, score_of_rrf_add]
    by_cases hxd : doc_id x.1 = i
    · rw [List.filter_cons_of_pos (by simp [hxd])]
      simp only [List.map_cons, List.sum_cons]
      rw [if_pos hxd.symm]
      ring
    · rw [List.filter_cons_of_neg (by simp [hxd])]
      rw [if_neg (fun h => hxd h.symm)]
      ring

/-- Lemma: `rrf_process` adds each list's contribution on top of the accumulator. -/
theorem score_of_rrf_process (acc : List ((String ⊕ Nat) × Doc × ℚ))
    (l : List (Doc × ℚ)) (i : String ⊕ Nat) :
    score_of (rrf_process acc l) i = score_of acc i + rrf_contrib l i := by
  have henum : l.enum = List.enumFrom 0 l := rfl
  unfold rrf_process rrf_contrib
  rw [henum]
  exact score_of_rrf_foldl l 0 acc i

/-- The fused score of every identity is the sum of its reciprocal-rank
contributions from the vector list and from the BM25 list. -/
theorem score_of_rrf_fused (vr br : List (Doc × ℚ)) (i : String ⊕ Nat) :
    score_of (rrf_fused vr br) i = rrf_contrib vr i + rrf_contrib br i := by
  unfold rrf_fused
  rw [score_of_rrf_process, score_of_rrf_process]
  have h0 : score_of [] i = 0 := rfl
  rw [h0, zero_add]

/-- C4 — fusion retrieval: (1) `FusionRetriever.retrieve` asks both
retrievers for `k*2` candidates and fuses; (2) each candidate identity's
fused score is the sum over both lists of `1/(rank+60)` at its 0-based
ranks; (3) the returned list is the top `k` of the fused candidates in
descending fused score (stable sort, then `take k`); (4) on the spec's
round-trip example — vector list `[X, Y]`, lexical list `[Y, X]` — the
fused scores of X and Y are both `1/60 + 1/61`, hence equal. -/
theorem fusion_rrf_characterization :
    (∀ (invoke : List Doc → String → Nat → List Doc) (ix : Indexer)
        (q : String) (k : Nat),
      fusion_retrieve invoke ix q k
        = match vector_retrieve ix q (k * 2) with
          | .error e => .error e
          | .ok vr => .ok (rrf_combine vr (bm25_retrieve invoke ix q (k * 2)) k))
    ∧ (∀ (vr br : List (Doc × ℚ)) (i : String ⊕ Nat),
      score_of (rrf_fused vr br) i = rrf_contrib vr i + rrf_contrib br i)
    ∧ (∀ (vr br : List (Doc × ℚ)) (k : Nat),
      rrf_combine vr br k
        = (((rrf_fused vr br).map (fun e => e.2)).insertionSort
            (fun a b => b.2 ≤ a.2)).take k
      ∧ List.Sorted (fun a b : Doc × ℚ => b.2 ≤ a.2) (rrf_combine vr br k))
    ∧ (∀ sx sy t1 t2 : ℚ,
      score_of (rrf_fused [(⟨some "x", 0, "X"⟩, sx), (⟨some "y", 1, "Y"⟩, sy)]
          [(⟨some "y", 1, "Y"⟩, t1), (⟨some "x", 0, "X"⟩, t2)])
        (doc_id ⟨some "x", 0, "X"⟩) = 1/60 + 1/61
      ∧ score_of (rrf_fused [(⟨some "x", 0, "X"⟩, sx), (⟨some "y", 1, "Y"⟩, sy)]
          [(⟨some "y", 1, "Y"⟩, t1), (⟨some "x", 0, "X"⟩, t2)])
        (doc_id ⟨some "y", 1, "Y"⟩) = 1/60 + 1/61) := by
  refine ⟨fun invoke ix q k => rfl, score_of_rrf_fused, ?_, ?_⟩
  · intro vr br k
    haveI htot : IsTotal (Doc × ℚ) (fun a b => b.2 ≤ a.2) := ⟨fun a b => le_total b.2 a.2⟩
    haveI htrans : IsTrans (Doc × ℚ) (fun a b => b.2 ≤ a.2) :=
      ⟨fun a b c hab hbc => le_trans hbc hab⟩
    refine ⟨rfl, ?_⟩
    unfold rrf_combine
    exact List.Pairwise.sublist (List.take_sublist _ _)
      (List.sorted_insertionSort _ _)
  · intro sx sy t1 t2
    rw [score_of_rrf_fused, score_of_rrf_fused]
    have h1 : (decide ("y" = "x")) = false := by decide
    have h2 : (decide ("x" = "y")) = false := by decide
    constructor
    · norm_num [rrf_contrib, doc_id, List.enum, List.enumFrom, List.filter, h1, h2]
    · norm_num [rrf_contrib, doc_id, List.enum, List.enumFrom, List.filter, h1, h2]

/-- C9 — an empty adapter (vector store initialized but holding no vectors,
`all_docs = []`) returns the empty result list for every query and `k` in
all three modes, rather than raising.  The external collaborators enter as
hypotheses describing their interface: similarity search over the empty
index returns no hits, and a `BM25Retriever` built from a corpus only
returns members of that corpus. -/
theorem empty_adapter_retrieval (ix : Indexer) (vs : String → Nat → List (Doc × ℚ))
    (invoke : List Doc → String → Nat → List Doc) (q : String) (k : Nat)
    (hvs : ix.vectorstore = some vs)
    (hempty : ∀ q' k', vs q' k' = [])
    (hdocs : ix.all_docs = [])
    (hinv : ∀ (ds : List Doc) (q' : String) (k' : Nat), ∀ d ∈ invoke ds q' k', d ∈ ds) :
    vector_retrieve ix q k = .ok []
    ∧ bm25_retrieve invoke ix q k = []
    ∧ fusion_retrieve invoke ix q k = .ok [] := by
  have hb : ∀ k', bm25_retrieve invoke ix q k' = [] := by
    intro k'
    unfold bm25_retrieve
    rw [hdocs]
    have hnil : invoke [] q k' = [] := by
      cases hinv2 : invoke [] q k' with
      | nil => rfl
      | cons a l =>
        exact absurd (hinv [] q k' a (by rw [hinv2]; exact List.mem_cons_self a l))
          (List.not_mem_nil a)
    rw [hnil]
    rfl
  refine ⟨by unfold vector_retrieve; rw [hvs]; simp [hempty], hb k, ?_⟩
  unfold fusion_retrieve
  rw [show vector_retrieve ix q (k * 2) = .ok [] from by
    unfold vector_retrieve; rw [hvs]; simp [hempty]]
  rw [hb (k * 2)]
  simp [rrf_combine, rrf_fused, rrf_process]

/-- C9 — witness for `empty_adapter_retrieval` with a concrete empty
adapter, a search function that finds nothing and a BM25 `invoke` that
truncates the corpus. -/
theorem empty_adapter_retrieval_witness :
    vector_retrieve ⟨some (fun _ _ => []), []⟩ "query" 5 = .ok []
    ∧ bm25_retrieve (fun ds _ k' => ds.take k') ⟨some (fun _ _ => []), []⟩ "query" 5 = []
    ∧ fusion_retrieve (fun ds _ k' => ds.take k') ⟨some (fun _ _ => []), []⟩ "query" 5 = .ok [] := by
  exact empty_adapter_retrieval ⟨some (fun _ _ => []), []⟩ (fun _ _ => [])
    (fun ds _ k' => ds.take k') "query" 5 rfl (fun _ _ => rfl) rfl
    (fun ds q' k' d hd => List.take_subset k' ds hd)

/-! ### `src/file_process/parallel_pipeline.py` — batch generators

A yielded result dict, reduced to its `status` field and the one other field
the claims inspect (`error` / `message`). -/
structure BatchResult where
  status : String
  info : String
deriving DecidableEq, Repr

/-- The batch slicing `for i in range(0, len(chunks), batch_size):
batch = chunks[i:i + batch_size]`: `⌈len/batch_size⌉` slices of
`batch_size` items (the `batch_size = 0` case, where Python `range` would
raise `ValueError`, is unreachable — the parameter defaults to 20 — and
yields `[]` here). -/
def chunk_batches {α : Type} (l : List α) (batch_size : Nat) : List (List α) :=
  (List.range ((l.length + batch_size - 1) / batch_size)).map
    (fun i => (l.drop (i * batch_size)).take batch_size)

/-- Model of `ParallelFileProcessingPipeline.process_files`.  The per-file work and
the completion order of `asyncio.as_completed` are abstracted into the
`file_results` list (one result per file, exceptions already converted to
records by `_process_single_file`); after draining, `save_index` runs once.
BUT: before any task is created the method runs `self.indexer = Indexer()`
when no indexer is set — `Indexer.__init__` requires `user_id` and
`index_path`, so a fresh pipeline raises `TypeError` before processing
anything, even an empty batch. -/
def process_files (indexer_ready : Bool) (file_results : List BatchResult) :
    Except String (List BatchResult × Nat) :=
  if indexer_ready then .ok (file_results, 1)
  else .error "TypeError: Indexer.__init__() missing 2 required positional arguments"

/-- What lines 588–611 of `index_all_chunks` would do once reached: yield
one `{"status": "failed", "error": "No chunks found"}` record when the chunk
list is empty (the branch has no `return`, so execution continues), fan the
chunk batches out (results abstracted by `index_batch`, completion order by
list order), and run `save_index` exactly once. -/
def index_all_chunks_after_delete {α : Type} (chunks : List α) (batch_size : Nat)
    (index_batch : List α → BatchResult) : List BatchResult × Nat :=
  let warn := if chunks.isEmpty then [⟨"failed", "No chunks found"⟩] else []
  (warn ++ (chunk_batches chunks batch_size).map index_batch, 1)

/-- Model of `ParallelFileProcessingPipeline.index_all_chunks`.  When
`create_index_run` fails, one failure record is yielded and the generator
returns (no finalizer).  Otherwise the source calls
`self.indexer.delete_file_chunks()` — but `Indexer.delete_file_chunks`
requires the positional argument `file_ids`, so the call raises `TypeError`
unconditionally and lines 588–611 (`index_all_chunks_after_delete`) are
unreachable. -/
def index_all_chunks {α : Type} (create_result : Bool × String) (chunks : List α)
    (batch_size : Nat) (index_batch : List α → BatchResult) :
    Except String (List BatchResult × Nat) :=
  if !create_result.1 then .ok ([⟨"failed", create_result.2⟩], 0)
  else .error "TypeError: delete_file_chunks() missing 1 required positional argument"

/-- Every slice of the empty list is empty, so an empty input produces no
batches. -/
theorem chunk_batches_nil {α : Type} (batch_size : Nat) :
    chunk_batches ([] : List α) batch_size = [] := by
  unfold chunk_batches
  cases batch_size with
  | zero => simp
  | succ b =>
    rw [show ((([] : List α).length + (b + 1) - 1) / (b + 1)) = 0 from by
      simp [Nat.div_eq_of_lt]]
    rfl

/-- C8 — evaluation of the batch pipelines at an empty batch.  (1) A fresh
pipeline's `process_files` raises `TypeError` (from `Indexer()`) instead of
completing; with an indexer already attached it does yield zero results and
run the finalizer once.  (2) `index_all_chunks` raises `TypeError` (from
`indexer.delete_file_chunks()`) right after a successful `create_index_run`,
so the finalizer never runs.  (3) Even the unreachable remainder of
`index_all_chunks` would yield one batch-level failure record
(`"No chunks found"`) rather than zero results — though it would run the
finalizer exactly once. -/
theorem empty_batch_pipeline_eval :
    process_files false [] = .error
      "TypeError: Indexer.__init__() missing 2 required positional arguments"
    ∧ process_files true [] = .ok ([], 1)
    ∧ index_all_chunks (true, "") ([] : List Nat) 20
        (fun _ => ⟨"success", "Chunks indexed successfully"⟩)
      = .error "TypeError: delete_file_chunks() missing 1 required positional argument"
    ∧ index_all_chunks_after_delete ([] : List Nat) 20
        (fun _ => ⟨"success", "Chunks indexed successfully"⟩)
      = ([⟨"failed", "No chunks found"⟩], 1) := by
  refine ⟨rfl, rfl, rfl, ?_⟩
  unfold index_all_chunks_after_delete
  rw [chunk_batches_nil]
  rfl
